import Mathlib

/-!
Verification of the kube-warden caretaker core: a shallow embedding of the
whitelist reconciler, the access-rule codec, the grant applier and the
expiry sweeper, together with theorems settling the specification claims.

Go strings are modelled as lists of characters (all data handled by the
program is ASCII, so Go's byte-wise string comparison coincides with the
character-wise comparison used here).  Go maps from string to string are
modelled as association lists with insert/delete/lookup operations; Go
slices of strings are plain lists.  The ambient clock (`time.Now()`) is
passed in explicitly as a civil date-time value, and the orchestration
API's update call is modelled by a flag saying whether persisting
succeeds.
-/

namespace Caretaker

/-- A Go string: a list of (ASCII) characters. -/
abbrev GoStr := List Char

/-- Go's `<` on strings: byte-wise lexicographic comparison (character-wise
here, which agrees with Go on ASCII data). -/
def lexLt : GoStr → GoStr → Bool
  | [], [] => false
  | [], _ :: _ => true
  | _ :: _, [] => false
  | a :: s, b :: t => if a = b then lexLt s t else decide (a < b)

/-- Go's `strings.HasPrefix`. -/
def hasPrefix (s p : GoStr) : Bool := p.isPrefixOf s

/-- Go's `strings.TrimPrefix`: drops `p` from the front of `s` when it is a
prefix, otherwise returns `s` unchanged. -/
def trimPrefix (s p : GoStr) : GoStr := if hasPrefix s p then s.drop p.length else s

/-- The opt-in management marker key (`mgmtAnnotation` in the source). -/
def mgmtAnnotation : GoStr := "service.caretaker.ipautomanaged".data

/-- The access-rule key prefix (`annotationKeyPrefix` in the source). -/
def annotationKeyPrefix : GoStr := "service.caretaker.ipaddr".data

/-- The metadata key recording the grant for `r`: the source builds it as
`fmt.Sprintf("%s.%s", annotationKeyPrefix, iprange)`. -/
def annKey (r : GoStr) : GoStr := annotationKeyPrefix ++ '.' :: r

/-- First index (if any) at which `n` occurs, mirroring the indexed search
loop of the source's remove branch. -/
def findIdxAux (n : GoStr) : List GoStr → Option Nat
  | [] => none
  | v :: rest => if v == n then some 0 else (findIdxAux n rest).map (· + 1)

/-- `reconcileSourceRanges` from the source.  The add branch errors on the
first element equal to `n` and otherwise appends `n`.  The remove branch
mirrors the Go loop `c[i] = c[0]; return c[1:]`: the slot of the first
match is overwritten with the first element and the head is dropped. -/
def reconcileSourceRanges (c : List GoStr) (n : GoStr) (op : String) : Except GoStr (List GoStr) :=
  if op = "add" then
    match c.find? (fun v => v == n) with
    | some v => Except.error (("IP address ".data ++ v) ++ " already whitelisted".data)
    | none => Except.ok (c ++ [n])
  else if op = "remove" then
    match findIdxAux n c with
    | some i => Except.ok ((c.set i (c.headD [])).drop 1)
    | none => Except.error "IP address not found.".data
  else
    Except.error ("Unsupported operation ".data ++ op.data)

/-! ### Basic lemmas about the reconciler -/

theorem find_self_of_mem {c : List GoStr} {n : GoStr} (h : n ∈ c) :
    c.find? (fun v => v == n) = some n := by
  induction c with
  | nil => cases h
  | cons a rest ih =>
    by_cases hv : a = n
    · subst hv; simp [List.find?]
    · have : n ∈ rest := by
        rcases List.mem_cons.mp h with h1 | h1
        · exact absurd h1.symm hv
        · exact h1
      have hb : (a == n) = false := by simp [hv]
      simp [List.find?, hb, ih this]

theorem find_none_of_not_mem {c : List GoStr} {n : GoStr} (h : ¬ n ∈ c) :
    c.find? (fun v => v == n) = none := by
  induction c with
  | nil => rfl
  | cons a rest ih =>
    have ha : ¬ a = n := fun e => h (e ▸ List.mem_cons_self a rest)
    have hr : ¬ n ∈ rest := fun m => h (List.mem_cons_of_mem a m)
    have hb : (a == n) = false := by simp [ha]
    simp [List.find?, hb, ih hr]

theorem findIdxAux_none_of_not_mem {c : List GoStr} {n : GoStr} (h : ¬ n ∈ c) :
    findIdxAux n c = none := by
  induction c with
  | nil => rfl
  | cons a rest ih =>
    have ha : ¬ a = n := fun e => h (e ▸ List.mem_cons_self a rest)
    have hr : ¬ n ∈ rest := fun m => h (List.mem_cons_of_mem a m)
    simp [findIdxAux, ha, ih hr]

theorem findIdxAux_append {pre post : List GoStr} {n : GoStr} (h : ¬ n ∈ pre) :
    findIdxAux n (pre ++ n :: post) = some pre.length := by
  induction pre with
  | nil => simp [findIdxAux]
  | cons a rest ih =>
    have ha : ¬ a = n := fun e => h (e ▸ List.mem_cons_self a rest)
    have hr : ¬ n ∈ rest := fun m => h (List.mem_cons_of_mem a m)
    simp [findIdxAux, ha, ih hr]

theorem set_at_junction {α : Type} (pre : List α) (x y : α) (post : List α) :
    (pre ++ x :: post).set pre.length y = pre ++ y :: post := by
  induction pre with
  | nil => rfl
  | cons a rest ih => simp [List.set, ih]

/-- Characterisation of the remove branch at the first occurrence of `n`:
the head is copied into the matched slot and then dropped. -/
theorem remove_ok_char (pre post : List GoStr) (n : GoStr) (h : ¬ n ∈ pre) :
    reconcileSourceRanges (pre ++ n :: post) n "remove"
      = Except.ok (pre.tail ++ pre.take 1 ++ post) := by
  cases pre with
  | nil =>
    simp [reconcileSourceRanges, findIdxAux]
  | cons p0 ps =>
    have ha : ¬ p0 = n := fun e => h (e ▸ List.mem_cons_self p0 ps)
    have hr : ¬ n ∈ ps := fun m => h (List.mem_cons_of_mem p0 m)
    have hidx : findIdxAux n ((p0 :: ps) ++ n :: post) = some (p0 :: ps).length :=
      findIdxAux_append h
    have hset : ((p0 :: ps) ++ n :: post).set (p0 :: ps).length ((p0 :: ps).headD [])
        = (p0 :: ps) ++ p0 :: post := set_at_junction (p0 :: ps) n p0 post
    simp only [reconcileSourceRanges, if_neg (by decide : ¬ ("remove" : String) = "add"),
      if_pos rfl, hidx, hset]
    simp

theorem remove_err_of_not_mem {c : List GoStr} {n : GoStr} (h : ¬ n ∈ c) :
    reconcileSourceRanges c n "remove" = Except.error "IP address not found.".data := by
  simp [reconcileSourceRanges, findIdxAux_none_of_not_mem h]

theorem add_ok_of_not_mem {c : List GoStr} {n : GoStr} (h : ¬ n ∈ c) :
    reconcileSourceRanges c n "add" = Except.ok (c ++ [n]) := by
  simp [reconcileSourceRanges, find_none_of_not_mem h]

theorem add_err_of_mem {c : List GoStr} {n : GoStr} (h : n ∈ c) :
    reconcileSourceRanges c n "add"
      = Except.error (("IP address ".data ++ n) ++ " already whitelisted".data) := by
  simp [reconcileSourceRanges, find_self_of_mem h]

/-- Every member of a list sits at a first occurrence. -/
theorem first_occ {c : List GoStr} {n : GoStr} (h : n ∈ c) :
    ∃ pre post, ¬ n ∈ pre ∧ c = pre ++ n :: post := by
  induction c with
  | nil => cases h
  | cons a rest ih =>
    by_cases ha : a = n
    · subst ha
      exact ⟨[], rest, by simp, rfl⟩
    · have hm : n ∈ rest := by
        rcases List.mem_cons.mp h with h1 | h1
        · exact absurd h1.symm ha
        · exact h1
      obtain ⟨pre, post, hp, hc⟩ := ih hm
      refine ⟨a :: pre, post, ?_, by simp [hc]⟩
      intro m
      rcases List.mem_cons.mp m with h1 | h1
      · exact ha h1.symm
      · exact hp h1

/-- First-occurrence decomposition of a successful removal. -/
theorem remove_ok_decomp {c c' : List GoStr} {n : GoStr}
    (h : reconcileSourceRanges c n "remove" = Except.ok c') :
    ∃ pre post, ¬ n ∈ pre ∧ c = pre ++ n :: post ∧ c' = pre.tail ++ pre.take 1 ++ post := by
  by_cases hm : n ∈ c
  · obtain ⟨pre, post, hp, hc⟩ := first_occ hm
    subst hc
    rw [remove_ok_char pre post n hp] at h
    exact ⟨pre, post, hp, rfl, (Except.ok.injEq _ _ ▸ h).symm⟩
  · rw [remove_err_of_not_mem hm] at h
    cases h

/-- A successful removal result is a permutation of the original list with
the first occurrence of the removed range erased. -/
theorem remove_ok_perm {c c' : List GoStr} {n : GoStr}
    (h : reconcileSourceRanges c n "remove" = Except.ok c') :
    List.Perm c' (c.erase n) := by
  obtain ⟨pre, post, hp, hc, hres⟩ := remove_ok_decomp h
  subst hc
  subst hres
  have he : (pre ++ n :: post).erase n = pre ++ post := by
    rw [List.erase_append_right _ (by simpa using hp), List.erase_cons_head]
  rw [he]
  cases pre with
  | nil => simp
  | cons p0 ps =>
    simp [List.perm_middle]

/-! ### Go map model (annotation store) -/

/-- Lookup in a Go string-to-string map, modelled as an association list. -/
def mapGet (m : List (GoStr × GoStr)) (k : GoStr) : Option GoStr :=
  match m.find? (fun p => p.1 == k) with
  | some p => some p.2
  | none => none

/-- Go map assignment `m[k] = v`: replace the entry when the key is present,
append it otherwise. -/
def mapInsert (m : List (GoStr × GoStr)) (k v : GoStr) : List (GoStr × GoStr) :=
  if m.any (fun p => p.1 == k) then m.map (fun p => if p.1 == k then (k, v) else p)
  else m ++ [(k, v)]

/-- Go's `delete(m, k)`. -/
def mapDelete (m : List (GoStr × GoStr)) (k : GoStr) : List (GoStr × GoStr) :=
  m.filter (fun p => !(p.1 == k))

theorem mapGet_cons (p : GoStr × GoStr) (rest : List (GoStr × GoStr)) (k : GoStr) :
    mapGet (p :: rest) k = if p.1 = k then some p.2 else mapGet rest k := by
  by_cases h : p.1 = k
  · simp [mapGet, List.find?, h]
  · have hb : (p.1 == k) = false := by simp [h]
    simp [mapGet, List.find?, hb, h]

theorem mapGet_insert_self (m : List (GoStr × GoStr)) (k v : GoStr) :
    mapGet (mapInsert m k v) k = some v := by
  by_cases hin : m.any (fun p => p.1 == k) = true
  · simp only [mapInsert, if_pos hin]
    induction m with
    | nil => cases hin
    | cons p rest ih =>
      by_cases hk : p.1 = k
      · simp [mapGet_cons, hk]
      · have hb : (p.1 == k) = false := by simp [hk]
        have hrest : rest.any (fun p => p.1 == k) = true := by
          rcases List.any_eq_true.mp hin with ⟨q, hq, hq2⟩
          rcases List.mem_cons.mp hq with h1 | h1
          · subst h1; simp [hb] at hq2
          · exact List.any_eq_true.mpr ⟨q, h1, hq2⟩
        simpa [mapGet_cons, hb, hk] using ih hrest
  · simp only [mapInsert, if_neg hin]
    have hall : ∀ q ∈ m, ¬ q.1 = k := by
      intro q hq he
      exact hin (List.any_eq_true.mpr ⟨q, hq, by simp [he]⟩)
    induction m with
    | nil => simp [mapGet_cons, mapGet]
    | cons p rest ih =>
      have hp : ¬ p.1 = k := hall p (List.mem_cons_self p rest)
      have hrest : ∀ q ∈ rest, ¬ q.1 = k := fun q hq => hall q (List.mem_cons_of_mem p hq)
      have hnr : ¬ rest.any (fun p => p.1 == k) = true := by
        intro hr
        rcases List.any_eq_true.mp hr with ⟨q, hq, hq2⟩
        exact hrest q hq (by simpa using hq2)
      simpa [mapGet_cons, hp] using ih hnr hrest

theorem mapGet_mapReplace_ne (m : List (GoStr × GoStr)) (k v k' : GoStr) (h : ¬ k' = k) :
    mapGet (m.map (fun p => if p.1 == k then (k, v) else p)) k' = mapGet m k' := by
  induction m with
  | nil => rfl
  | cons p rest ih =>
    by_cases hk : p.1 = k
    · have hk' : ¬ k = k' := fun e => h e.symm
      have hp' : ¬ p.1 = k' := by rw [hk]; exact hk'
      have hb : (p.1 == k) = true := by simp [hk]
      simp only [List.map_cons, if_pos hb]
      rw [mapGet_cons, mapGet_cons, if_neg hk', if_neg hp', ih]
    · have hb : (p.1 == k) = false := by simp [hk]
      simp only [List.map_cons, if_neg (by simp [hb] : ¬ (p.1 == k) = true)]
      rw [mapGet_cons, mapGet_cons, ih]

theorem mapGet_append_one_ne (m : List (GoStr × GoStr)) (k v k' : GoStr) (h : ¬ k' = k) :
    mapGet (m ++ [(k, v)]) k' = mapGet m k' := by
  induction m with
  | nil =>
    have hk' : ¬ k = k' := fun e => h e.symm
    simp [mapGet_cons, hk', mapGet]
  | cons p rest ih =>
    rw [List.cons_append, mapGet_cons, mapGet_cons, ih]

theorem mapGet_insert_ne (m : List (GoStr × GoStr)) (k v k' : GoStr) (h : ¬ k' = k) :
    mapGet (mapInsert m k v) k' = mapGet m k' := by
  by_cases hin : m.any (fun p => p.1 == k) = true
  · rw [mapInsert, if_pos hin, mapGet_mapReplace_ne m k v k' h]
  · rw [mapInsert, if_neg hin, mapGet_append_one_ne m k v k' h]

theorem mapGet_delete_self (m : List (GoStr × GoStr)) (k : GoStr) :
    mapGet (mapDelete m k) k = none := by
  induction m with
  | nil => rfl
  | cons p rest ih =>
    by_cases hk : p.1 = k
    · have hb : (p.1 == k) = true := by simp [hk]
      simpa [mapDelete, List.filter, hb] using ih
    · have hb : (p.1 == k) = false := by simp [hk]
      simpa [mapDelete, List.filter, hb, mapGet_cons, hk] using ih

theorem mapGet_delete_ne (m : List (GoStr × GoStr)) (k k' : GoStr) (h : ¬ k' = k) :
    mapGet (mapDelete m k) k' = mapGet m k' := by
  induction m with
  | nil => rfl
  | cons p rest ih =>
    by_cases hk : p.1 = k
    · have hb : (p.1 == k) = true := by simp [hk]
      have hp' : ¬ p.1 = k' := by rw [hk]; exact fun e => h e.symm
      simp only [mapDelete, List.filter, hb, Bool.not_true]
      rw [mapGet_cons, if_neg hp']
      simpa [mapDelete] using ih
    · have hb : (p.1 == k) = false := by simp [hk]
      simp only [mapDelete, List.filter, hb, Bool.not_false]
      rw [mapGet_cons, mapGet_cons]
      by_cases hp' : p.1 = k'
      · simp [hp']
      · simpa [mapDelete, hp'] using ih

/-! ### Civil time model

The source formats `time.Now()` with the layout `"2006-01-02 15:04:05"`
and computes deadlines with `AddDate(0, 0, 2)`.  Time is modelled as a
civil date-time record; `addDateDays` models `AddDate(0, 0, n)` (day
addition followed by Go's calendar normalisation, which for the small
offsets used by the source needs at most `n + 1` month-roll steps). -/

structure GoTime where
  year : Nat
  month : Nat
  day : Nat
  hour : Nat
  minute : Nat
  second : Nat
deriving DecidableEq

/-- Gregorian leap-year test. -/
def isLeap (y : Nat) : Bool := (y % 4 == 0 && !(y % 100 == 0)) || (y % 400 == 0)

def yearDays (y : Nat) : Nat := if isLeap y then 366 else 365

def daysInMonth (y m : Nat) : Nat :=
  if m = 2 then (if isLeap y then 29 else 28)
  else if m = 4 ∨ m = 6 ∨ m = 9 ∨ m = 11 then 30
  else 31

/-- Days in year `y` strictly before month `m` (months are 1-based). -/
def daysBeforeMonth (y : Nat) : Nat → Nat
  | 0 => 0
  | m + 1 => if m = 0 then 0 else daysBeforeMonth y m + daysInMonth y m

/-- Days strictly before year `y` counting from year 1 (years are 1-based). -/
def daysBeforeYear : Nat → Nat
  | 0 => 0
  | y + 1 => if y = 0 then 0 else daysBeforeYear y + yearDays y

/-- Day number of a date (0 for January 1 of year 1). -/
def toDays (t : GoTime) : Nat :=
  daysBeforeYear t.year + daysBeforeMonth t.year t.month + (t.day - 1)

/-- Seconds since the epoch 0001-01-01 00:00:00 of the civil calendar. -/
def toSeconds (t : GoTime) : Nat :=
  toDays t * 86400 + t.hour * 3600 + t.minute * 60 + t.second

/-- A well-formed calendar date-time with a four-digit year. -/
def ValidTime (t : GoTime) : Prop :=
  1 ≤ t.year ∧ t.year ≤ 9999 ∧ 1 ≤ t.month ∧ t.month ≤ 12 ∧
  1 ≤ t.day ∧ t.day ≤ daysInMonth t.year t.month ∧
  t.hour ≤ 23 ∧ t.minute ≤ 59 ∧ t.second ≤ 59

instance (t : GoTime) : Decidable (ValidTime t) := by
  unfold ValidTime
  exact inferInstance

/-- One month-roll normalisation step of Go's date constructor. -/
def monthRoll (t : GoTime) : GoTime :=
  if t.month > 12 then { t with month := 1, year := t.year + 1 } else t

/-- Normalise a day-field overflow, spending one unit of fuel per roll. -/
def normDays : Nat → GoTime → GoTime
  | 0, t => t
  | fuel + 1, t =>
    if t.day > daysInMonth t.year t.month then
      normDays fuel (monthRoll { t with day := t.day - daysInMonth t.year t.month,
                                        month := t.month + 1 })
    else t

/-- `AddDate(0, 0, n)` of the source: add `n` days and normalise. -/
def addDateDays (n : Nat) (t : GoTime) : GoTime :=
  normDays (n + 1) { t with day := t.day + n }

/-- The ASCII space character (written via its code to keep the literal
unambiguous). -/
def spaceChar : Char := Char.ofNat 32

def digitChar (n : Nat) : Char := Char.ofNat (48 + n)

/-- Two-digit zero-padded decimal rendering (Go layout fields `01`..`05`). -/
def pad2 (n : Nat) : GoStr := [digitChar (n / 10), digitChar (n % 10)]

/-- Four-digit zero-padded decimal rendering (Go layout field `2006`). -/
def pad4 (n : Nat) : GoStr :=
  [digitChar (n / 1000), digitChar (n / 100 % 10), digitChar (n / 10 % 10), digitChar (n % 10)]

/-- Go's `Format("2006-01-02 15:04:05")`. -/
def formatTime (t : GoTime) : GoStr :=
  pad4 t.year ++ '-' :: (pad2 t.month ++ '-' :: (pad2 t.day ++ spaceChar ::
    (pad2 t.hour ++ ':' :: (pad2 t.minute ++ ':' :: pad2 t.second))))

/-! ### The managed resource and the caretaker operations -/

/-- The slice of a Kubernetes `Service` object the caretaker reads and
writes: name, namespace, the annotation map and
`Spec.LoadBalancerSourceRanges`. -/
structure Service where
  name : GoStr
  ns : GoStr
  annotations : List (GoStr × GoStr)
  loadBalancerSourceRanges : List GoStr
deriving DecidableEq

/-- `IsAutoManaged` from the source: the opt-in marker key is present. -/
def IsAutoManaged (s : Service) : Bool :=
  (mapGet s.annotations mgmtAnnotation).isSome

/-- `applySourceRangesToSpec` from the source. -/
def applySourceRangesToSpec (r : List GoStr) (s : Service) : Service :=
  { s with loadBalancerSourceRanges := r }

/-- `updateServiceAnnotation` from the source: stamp the deadline
`now + 2 days`, formatted with the fixed layout, under the key
`annotationKeyPrefix.<iprange>`; returns the deadline string together with
the mutated service.  The ambient `time.Now()` is the explicit `nowT`. -/
def updateServiceAnnotation (nowT : GoTime) (iprange : GoStr) (s : Service) : GoStr × Service :=
  let deadline := formatTime (addDateDays 2 nowT)
  (deadline, { s with annotations := mapInsert s.annotations (annKey iprange) deadline })

/-- `removeServiceAnnotation` from the source. -/
def removeServiceAnnotation (iprange : GoStr) (s : Service) : Service :=
  { s with annotations := mapDelete s.annotations (annKey iprange) }

/-- The message wrapping a failed gateway update (the remote error text is
irrelevant to the claims, so persisting is modelled by a success flag). -/
def updateFailedMsg : GoStr := "service update failed".data

/-- `UpdateServiceSpec` from the source: add the range, stamp the deadline,
persist.  Returns the service object as mutated in memory together with
the deadline (or the error).  On a reconcile failure nothing is mutated;
on a persist failure the in-memory mutation has already happened. -/
def UpdateServiceSpec (nowT : GoTime) (iprange : GoStr) (s : Service) (persistOk : Bool) :
    Service × Except GoStr GoStr :=
  match reconcileSourceRanges s.loadBalancerSourceRanges iprange "add" with
  | Except.error e => (s, Except.error e)
  | Except.ok ipranges =>
    let s1 := applySourceRangesToSpec ipranges s
    let upd := updateServiceAnnotation nowT iprange s1
    (upd.2, if persistOk then Except.ok upd.1 else Except.error updateFailedMsg)

/-- `RemoveIpFromService` from the source: withdraw the range from the
allow-list, erase the annotation, persist.  Returns the in-memory service
together with the error, if any. -/
def RemoveIpFromService (iprange : GoStr) (s : Service) (persistOk : Bool) :
    Service × Option GoStr :=
  match reconcileSourceRanges s.loadBalancerSourceRanges iprange "remove" with
  | Except.error e => (s, some e)
  | Except.ok ipranges =>
    let s1 := removeServiceAnnotation iprange (applySourceRangesToSpec ipranges s)
    (s1, if persistOk then none else some updateFailedMsg)

/-- The annotation loop of `IterateAnnotations`: scan the entries, and for
each key carrying the access-rule prefix whose value sorts before the
current time, retract the rule; a retraction error is returned at once,
leaving the remaining entries unprocessed (`return err` in the source). -/
def iterGo (now : GoStr) (persistOk : Bool) :
    List (GoStr × GoStr) → Service → Service × Option GoStr
  | [], s => (s, none)
  | (a, v) :: rest, s =>
    if hasPrefix a annotationKeyPrefix then
      if lexLt v now then
        match RemoveIpFromService (trimPrefix a (annotationKeyPrefix ++ ['.'])) s persistOk with
        | (s', some e) => (s', some e)
        | (s', none) => iterGo now persistOk rest s'
      else iterGo now persistOk rest s
    else iterGo now persistOk rest s

/-- `IterateAnnotations` from the source: the per-resource expiry sweep. -/
def IterateAnnotations (nowT : GoTime) (persistOk : Bool) (s : Service) :
    Service × Option GoStr :=
  iterGo (formatTime nowT) persistOk s.annotations s

/-- `GetServiceList` from the source: the gateway listing's error is
discarded (`services, _ := ...`).  The generated client allocates its
result object before issuing the request, so on a failed call it returns
that non-nil `ServiceList` with an empty `Items` slice; `GetServiceList`
passes it through and the error is lost. -/
def GetServiceList (listResult : Except GoStr (List Service)) : List Service :=
  match listResult with
  | Except.ok items => items
  | Except.error _ => []

/-- `IsAutoManaged` gate plus per-resource sweep, as performed for each
listed service by `backgroundWorker`. -/
def processService (nowT : GoTime) (persistOk : Bool) (s : Service) : Service × Option GoStr :=
  if IsAutoManaged s then IterateAnnotations nowT persistOk s else (s, none)

/-- The service loop of one `backgroundWorker` tick: each service is
processed in turn and a per-service error is logged and does not stop the
loop. -/
def sweepServices (nowT : GoTime) (persistOk : Bool) :
    List Service → List Service × List GoStr
  | [] => ([], [])
  | s :: rest =>
    let r := processService nowT persistOk s
    let acc := sweepServices nowT persistOk rest
    (r.1 :: acc.1, match r.2 with | some e => e :: acc.2 | none => acc.2)

/-- One tick of `backgroundWorker` in `server.go`: list the services and
sweep each auto-managed one, returning the post-sweep services and the
logged per-service errors.  No state is carried from one tick to the
next, so every tick is one evaluation of this function.  When the
listing failed, the loop ranges over the empty `Items` slice: nothing is
processed, nothing is logged, and the worker carries on. -/
def backgroundWorkerTick (nowT : GoTime) (persistOk : Bool)
    (listResult : Except GoStr (List Service)) : List Service × List GoStr :=
  sweepServices nowT persistOk (GetServiceList listResult)

/-! ### Claim C7: the add operation -/

/-- Claim C7: `Add` fails with the duplicate-rule error exactly when the
range is already present (first conjunct), and otherwise succeeds with the
range appended at the end, existing order preserved (second conjunct). -/
theorem add_spec :
    (∀ (c : List GoStr) (n : GoStr), n ∈ c →
      reconcileSourceRanges c n "add"
        = Except.error (("IP address ".data ++ n) ++ " already whitelisted".data)) ∧
    (∀ (c : List GoStr) (n : GoStr), ¬ n ∈ c →
      reconcileSourceRanges c n "add" = Except.ok (c ++ [n])) :=
  ⟨fun _ _ h => add_err_of_mem h, fun _ _ h => add_ok_of_not_mem h⟩

/-- Witness for C7 at concrete inputs: a duplicate in the middle fails, a
fresh range is appended at the end. -/
theorem add_spec_witness :
    reconcileSourceRanges ["10.0.0.1/32".data, "10.0.0.2/32".data, "10.0.0.3/32".data]
        "10.0.0.2/32".data "add"
      = Except.error (("IP address ".data ++ "10.0.0.2/32".data) ++ " already whitelisted".data) ∧
    reconcileSourceRanges ["10.0.0.1/32".data] "10.0.0.2/32".data "add"
      = Except.ok ["10.0.0.1/32".data, "10.0.0.2/32".data] := by
  constructor
  · exact add_spec.1 _ _ (by decide)
  · exact add_spec.2 _ _ (by decide)

/-! ### Claims C1 and C2: the remove defect -/

/-- Claim C1 (code bug): removing the last of three entries relocates the
first entry into the matched slot and drops the head, so the relative
order of the remaining entries is not preserved — the source's
`c[i] = c[0]; return c[1:]` defect flagged in the spec's design notes. -/
theorem remove_order_bug :
    reconcileSourceRanges
        ["10.0.0.1/32".data, "10.0.0.2/32".data, "10.0.0.3/32".data]
        "10.0.0.3/32".data "remove"
      = Except.ok ["10.0.0.2/32".data, "10.0.0.1/32".data] ∧
    (["10.0.0.2/32".data, "10.0.0.1/32".data] : List GoStr)
      ≠ ["10.0.0.1/32".data, "10.0.0.2/32".data] := by
  constructor
  · rfl
  · decide

/-- Claim C2 (code bug): for `S = [10.0.0.1/32, 10.0.0.2/32]` and the fresh
non-empty range `a = 10.0.0.9/32`, `Remove(Add(S, a), a)` returns `S`
reversed, not `S`. -/
theorem add_remove_roundtrip_bug :
    ¬ "10.0.0.9/32".data ∈ (["10.0.0.1/32".data, "10.0.0.2/32".data] : List GoStr) ∧
    (reconcileSourceRanges ["10.0.0.1/32".data, "10.0.0.2/32".data]
        "10.0.0.9/32".data "add").bind
      (fun l => reconcileSourceRanges l "10.0.0.9/32".data "remove")
      = Except.ok ["10.0.0.2/32".data, "10.0.0.1/32".data] ∧
    (Except.ok ["10.0.0.2/32".data, "10.0.0.1/32".data] : Except GoStr (List GoStr))
      ≠ Except.ok ["10.0.0.1/32".data, "10.0.0.2/32".data] := by
  refine ⟨by decide, rfl, ?_⟩
  intro h
  cases h

/-! ### Claim C10: the sweep never touches the opt-in marker -/

theorem hasPrefix_append (p l : GoStr) : hasPrefix (p ++ l) p = true := by
  rw [hasPrefix, List.isPrefixOf_iff_prefix]
  exact List.prefix_append p l

theorem annKey_hasPrefix (r : GoStr) : hasPrefix (annKey r) annotationKeyPrefix = true :=
  hasPrefix_append annotationKeyPrefix ('.' :: r)

theorem mgmt_no_rule_pfx : hasPrefix mgmtAnnotation annotationKeyPrefix = false := by
  decide

theorem annKey_ne_mgmt (r : GoStr) : ¬ annKey r = mgmtAnnotation := by
  intro h
  have h1 : hasPrefix mgmtAnnotation annotationKeyPrefix = true := h ▸ annKey_hasPrefix r
  rw [mgmt_no_rule_pfx] at h1
  cases h1

theorem mgmt_ne_annKey (r : GoStr) : ¬ mgmtAnnotation = annKey r :=
  fun h => annKey_ne_mgmt r h.symm

/-- After `RemoveIpFromService` the annotation map is either untouched (on
a reconcile failure) or has exactly the key `annKey ip` deleted. -/
theorem rifs_annotations (ip : GoStr) (s : Service) (pOk : Bool) :
    ((RemoveIpFromService ip s pOk).1).annotations = s.annotations ∨
    ((RemoveIpFromService ip s pOk).1).annotations = mapDelete s.annotations (annKey ip) := by
  unfold RemoveIpFromService
  cases reconcileSourceRanges s.loadBalancerSourceRanges ip "remove" with
  | error e => left; rfl
  | ok l => right; rfl

theorem iterGo_mgmt (now : GoStr) (pOk : Bool) (l : List (GoStr × GoStr)) (s : Service) :
    mapGet ((iterGo now pOk l s).1).annotations mgmtAnnotation
      = mapGet s.annotations mgmtAnnotation := by
  induction l generalizing s with
  | nil => rfl
  | cons av rest ih =>
    obtain ⟨a, v⟩ := av
    by_cases hpfx : hasPrefix a annotationKeyPrefix = true
    · by_cases hexp : lexLt v now = true
      · simp only [iterGo, hpfx, hexp, if_pos]
        have hann := rifs_annotations (trimPrefix a (annotationKeyPrefix ++ ['.'])) s pOk
        have hget : mapGet ((RemoveIpFromService
              (trimPrefix a (annotationKeyPrefix ++ ['.'])) s pOk).1).annotations
              mgmtAnnotation = mapGet s.annotations mgmtAnnotation := by
          rcases hann with h | h
          · rw [h]
          · rw [h]
            exact mapGet_delete_ne _ _ _
              (mgmt_ne_annKey (trimPrefix a (annotationKeyPrefix ++ ['.'])))
        cases hr : RemoveIpFromService (trimPrefix a (annotationKeyPrefix ++ ['.'])) s pOk with
        | mk s' err =>
          rw [hr] at hget
          cases err with
          | some e => exact hget
          | none => rw [ih s']; exact hget
      · simp only [iterGo]
        rw [if_pos hpfx, if_neg hexp]
        exact ih s
    · simp only [iterGo]
      rw [if_neg hpfx]
      exact ih s

/-- Claim C10: the marker key does not carry the access-rule prefix, and
the per-resource sweep preserves the opt-in state of the resource. -/
theorem sweep_preserves_mgmt :
    hasPrefix mgmtAnnotation annotationKeyPrefix = false ∧
    (∀ (nowT : GoTime) (pOk : Bool) (s : Service), IsAutoManaged s = true →
      IsAutoManaged ((IterateAnnotations nowT pOk s).1) = true) := by
  refine ⟨mgmt_no_rule_pfx, fun nowT pOk s h => ?_⟩
  rw [IsAutoManaged, IterateAnnotations, iterGo_mgmt]
  exact h

/-- Witness for C10: a concrete opted-in service with one expired rule is
still opted in after the sweep. -/
theorem sweep_preserves_mgmt_witness :
    IsAutoManaged ((IterateAnnotations ⟨2026, 1, 1, 0, 0, 0⟩ true
      { name := "ingress-nginx".data, ns := "default".data,
        annotations := [( mgmtAnnotation, "true".data),
                        (annKey "10.0.0.1/32".data, "2020-01-01 00:00:00".data)],
        loadBalancerSourceRanges := ["10.0.0.1/32".data] }).1) = true :=
  sweep_preserves_mgmt.2 ⟨2026, 1, 1, 0, 0, 0⟩ true _ (by decide)

/-! ### Claim C4: access-rule annotations always have allow-list backing -/

theorem annKey_inj {r r' : GoStr} (h : annKey r = annKey r') : r = r' := by
  unfold annKey at h
  have h2 : '.' :: r = '.' :: r' := List.append_cancel_left h
  exact (List.cons.injEq _ _ _ _ ▸ h2).2

theorem add_ok_shape {c l : List GoStr} {n : GoStr}
    (h : reconcileSourceRanges c n "add" = Except.ok l) : l = c ++ [n] := by
  by_cases hm : n ∈ c
  · rw [add_err_of_mem hm] at h
    cases h
  · rw [add_ok_of_not_mem hm] at h
    exact (Except.ok.injEq _ _ ▸ h).symm

/-- Membership of any other range survives a successful removal. -/
theorem remove_ok_mem {c c' : List GoStr} {n r : GoStr}
    (h : reconcileSourceRanges c n "remove" = Except.ok c')
    (hr : r ∈ c) (hne : ¬ r = n) : r ∈ c' := by
  have hperm := remove_ok_perm h
  exact hperm.mem_iff.mpr ((List.mem_erase_of_ne hne).mpr hr)

/-- The system's consistency invariant: every metadata entry keyed
`annotationKeyPrefix.<range>` has `<range>` present in the allow-list. -/
def RuleInvariant (s : Service) : Prop :=
  ∀ r : GoStr, (mapGet s.annotations (annKey r)).isSome = true →
    r ∈ s.loadBalancerSourceRanges

/-- Claim C4: a successful grant application (`UpdateServiceSpec`) and a
successful expiry retraction (`RemoveIpFromService`) both preserve the
invariant that every access-rule annotation is backed by an allow-list
member. -/
theorem ops_preserve_rule_inv :
    (∀ (nowT : GoTime) (iprange : GoStr) (s : Service) (pOk : Bool) (dl : GoStr),
      RuleInvariant s → (UpdateServiceSpec nowT iprange s pOk).2 = Except.ok dl →
      RuleInvariant (UpdateServiceSpec nowT iprange s pOk).1) ∧
    (∀ (iprange : GoStr) (s : Service) (pOk : Bool),
      RuleInvariant s → (RemoveIpFromService iprange s pOk).2 = none →
      RuleInvariant (RemoveIpFromService iprange s pOk).1) := by
  constructor
  · intro nowT iprange s pOk dl hinv hok
    cases hrec : reconcileSourceRanges s.loadBalancerSourceRanges iprange "add" with
    | error e =>
      rw [UpdateServiceSpec] at hok
      rw [hrec] at hok
      cases hok
    | ok l =>
      have hl : l = s.loadBalancerSourceRanges ++ [iprange] := add_ok_shape hrec
      simp only [UpdateServiceSpec, hrec]
      intro r hr
      simp only [ updateServiceAnnotation, applySourceRangesToSpec] at hr ⊢
      by_cases he : r = iprange
      · subst he
        rw [hl]
        exact List.mem_append_right _ (List.mem_singleton.mpr rfl)
      · have hne : ¬ annKey r = annKey iprange := fun hk => he (annKey_inj hk)
        rw [mapGet_insert_ne _ _ _ _ hne] at hr
        rw [hl]
        exact List.mem_append_left _ (hinv r hr)
  · intro iprange s pOk hinv hok
    cases hrec : reconcileSourceRanges s.loadBalancerSourceRanges iprange "remove" with
    | error e =>
      rw [RemoveIpFromService] at hok
      rw [hrec] at hok
      cases hok
    | ok l =>
      simp only [RemoveIpFromService, hrec]
      intro r hr
      simp only [ removeServiceAnnotation, applySourceRangesToSpec] at hr ⊢
      by_cases he : r = iprange
      · subst he
        rw [mapGet_delete_self] at hr
        cases hr
      · have hne : ¬ annKey r = annKey iprange := fun hk => he (annKey_inj hk)
        rw [mapGet_delete_ne _ _ _ hne] at hr
        exact remove_ok_mem hrec (hinv r hr) he

/-- Witness for C4: applying a grant to a clean opted-in service and then
retracting it preserves the invariant at each step. -/
theorem ops_preserve_rule_inv_witness :
    RuleInvariant (UpdateServiceSpec ⟨2026, 1, 1, 0, 0, 0⟩ "10.0.0.1/32".data
      { name := "ingress-nginx".data, ns := "default".data,
        annotations := [( mgmtAnnotation, "true".data)],
        loadBalancerSourceRanges := [] } true).1 ∧
    RuleInvariant (RemoveIpFromService "10.0.0.1/32".data
      { name := "ingress-nginx".data, ns := "default".data,
        annotations := [(annKey "10.0.0.1/32".data, "2020-01-01 00:00:00".data)],
        loadBalancerSourceRanges := ["10.0.0.1/32".data] } true).1 := by
  constructor
  · refine ops_preserve_rule_inv.1 ⟨2026, 1, 1, 0, 0, 0⟩ "10.0.0.1/32".data _ true
      (formatTime (addDateDays 2 ⟨2026, 1, 1, 0, 0, 0⟩)) ?_ rfl
    intro r hr
    have : mapGet [( mgmtAnnotation, "true".data)] (annKey r) = none := by
      rw [mapGet_cons]
      rw [if_neg (mgmt_ne_annKey r)]
      rfl
    rw [this] at hr
    cases hr
  · refine ops_preserve_rule_inv.2 "10.0.0.1/32".data _ true ?_ rfl
    intro r hr
    rw [mapGet_cons] at hr
    by_cases he : annKey "10.0.0.1/32".data = annKey r
    · have : r = "10.0.0.1/32".data := (annKey_inj he).symm
      subst this
      exact List.mem_singleton.mpr rfl
    · rw [if_neg he] at hr
      cases hr

/-! ### Claim C3: scope of a retraction failure during a sweep tick -/

/-- Claim C3 (amended): a retraction failure on the first matching rule
makes `IterateAnnotations` return that error at once, leaving the
remaining entries of the same resource unprocessed (first conjunct);
while the worker loop processes every listed service independently,
logging per-service errors without stopping (second conjunct). -/
theorem sweep_error_scope :
    (∀ (nowT : GoTime) (pOk : Bool) (a v : GoStr) (rest : List (GoStr × GoStr))
        (s r : Service) (e : GoStr),
      s.annotations = (a, v) :: rest →
      hasPrefix a annotationKeyPrefix = true →
      lexLt v (formatTime nowT) = true →
      RemoveIpFromService (trimPrefix a (annotationKeyPrefix ++ ['.'])) s pOk = (r, some e) →
      IterateAnnotations nowT pOk s = (r, some e)) ∧
    (∀ (nowT : GoTime) (pOk : Bool) (items : List Service),
      sweepServices nowT pOk items
        = (items.map (fun s => (processService nowT pOk s).1),
           items.filterMap (fun s => (processService nowT pOk s).2))) := by
  constructor
  · intro nowT pOk a v rest s r e hann hpfx hexp hrem
    rw [IterateAnnotations, hann]
    simp only [iterGo]
    rw [if_pos hpfx, if_pos hexp, hrem]
  · intro nowT pOk items
    induction items with
    | nil => rfl
    | cons s rest ih =>
      simp only [sweepServices, ih, List.map_cons, List.filterMap_cons]
      cases hp : (processService nowT pOk s).2 with
      | some e => rfl
      | none => rfl

/-- A resource carrying two expired rules, the first of which cannot be
retracted because its range is absent from the allow-list. -/
def svcAbort : Service :=
  { name := "ingress-nginx".data, ns := "default".data,
    annotations := [( mgmtAnnotation, "true".data),
                    (annKey "10.0.0.1/32".data, "2020-01-01 00:00:00".data),
                    (annKey "10.0.0.2/32".data, "2020-01-01 00:00:00".data)],
    loadBalancerSourceRanges := ["10.0.0.2/32".data] }

/-- Counterexample to C3 as stated: when retracting the first expired rule
fails (range not in the allow-list), the sweep of that resource stops:
the second expired rule — whose retraction would have succeeded — is left
untouched, so processing of the remaining rules on the same resource is
aborted, contrary to the claim. -/
theorem sweep_abort_counterexample :
    (IterateAnnotations ⟨2026, 1, 1, 0, 0, 0⟩ true svcAbort).2
      = some "IP address not found.".data ∧
    mapGet ((IterateAnnotations ⟨2026, 1, 1, 0, 0, 0⟩ true svcAbort).1).annotations
      (annKey "10.0.0.2/32".data) = some "2020-01-01 00:00:00".data ∧
    lexLt "2020-01-01 00:00:00".data (formatTime ⟨2026, 1, 1, 0, 0, 0⟩) = true ∧
    (RemoveIpFromService "10.0.0.2/32".data
      (IterateAnnotations ⟨2026, 1, 1, 0, 0, 0⟩ true svcAbort).1 true).2 = none := by
  refine ⟨?_, ?_, ?_, ?_⟩ <;> decide

/-- Witness for the amended C3 at a concrete input: the first rule's
failure is the result of the whole per-resource sweep. -/
theorem sweep_error_scope_witness :
    IterateAnnotations ⟨2026, 1, 1, 0, 0, 0⟩ true
      { name := "ingress-nginx".data, ns := "default".data,
        annotations := [(annKey "10.0.0.1/32".data, "2020-01-01 00:00:00".data),
                        (annKey "10.0.0.2/32".data, "2020-01-01 00:00:00".data)],
        loadBalancerSourceRanges := ["10.0.0.2/32".data] }
      = ({ name := "ingress-nginx".data, ns := "default".data,
           annotations := [(annKey "10.0.0.1/32".data, "2020-01-01 00:00:00".data),
                           (annKey "10.0.0.2/32".data, "2020-01-01 00:00:00".data)],
           loadBalancerSourceRanges := ["10.0.0.2/32".data] },
         some "IP address not found.".data) :=
  sweep_error_scope.1 ⟨2026, 1, 1, 0, 0, 0⟩ true
    (annKey "10.0.0.1/32".data) "2020-01-01 00:00:00".data
    [(annKey "10.0.0.2/32".data, "2020-01-01 00:00:00".data)]
    _ _ "IP address not found.".data rfl (by decide) (by decide) (by decide)

/-! ### Claim C9: a failed gateway listing -/

/-- Claim C9 (amended): on a failed gateway listing the error is
discarded without being logged — `GetServiceList` yields the empty
listing and loses the error — and the tick is effectively skipped: it
completes having processed no resource, attempted no mutation and
emitted no log, so the failure is not fatal and (the worker being
stateless across ticks) subsequent ticks proceed normally. -/
theorem listing_failure_skips_silently :
    (∀ e : GoStr, GetServiceList (Except.error e) = []) ∧
    (∀ (nowT : GoTime) (pOk : Bool) (e : GoStr),
      backgroundWorkerTick nowT pOk (Except.error e) = ([], [])) :=
  ⟨fun _ => rfl, fun _ _ _ => rfl⟩

/-- Counterexample to C9 as stated: the claim requires the listing
failure to be logged, but the tick after a failed listing completes with
an empty log (and an empty result) — the error was dropped by the blank
identifier in `GetServiceList`, so nothing is ever logged. -/
theorem listing_failure_not_logged :
    backgroundWorkerTick ⟨2026, 1, 1, 0, 0, 0⟩ true
        (Except.error "connection refused".data) = ([], []) ∧
    ((backgroundWorkerTick ⟨2026, 1, 1, 0, 0, 0⟩ true
        (Except.error "connection refused".data)).2.length = 0) := by
  exact ⟨rfl, rfl⟩

/-! ### Claim C8: sweeping one expired and one live rule -/

theorem trimPrefix_annKey (r : GoStr) :
    trimPrefix (annKey r) (annotationKeyPrefix ++ ['.']) = r := by
  have h1 : annKey r = (annotationKeyPrefix ++ ['.']) ++ r := by
    simp [annKey]
  rw [trimPrefix, h1, hasPrefix_append, if_pos rfl]
  exact List.drop_left _ _

theorem annKey_beq_false {r r' : GoStr} (h : ¬ r = r') :
    (annKey r == annKey r') = false := by
  simp only [beq_eq_false_iff_ne, ne_eq]
  exact fun hk => h (annKey_inj hk)

/-- Claim C8: sweeping a resource that carries one expired rule and one
non-expired rule (with the expired range present exactly once in the
allow-list and the live range present as well) removes exactly the
expired rule's range and annotation: the sweep succeeds, the annotation
map retains only the live rule, the expired range is gone from the
allow-list, the live range is still there, and the resulting allow-list
is a permutation of the original minus the expired range. -/
theorem sweep_two_rules (nowT : GoTime) (r1 r2 d1 d2 : GoStr) (s : Service)
    (hann : s.annotations = [(annKey r1, d1), (annKey r2, d2)])
    (hexp : lexLt d1 (formatTime nowT) = true)
    (hnot : ¬ lexLt d2 (formatTime nowT) = true)
    (hne : ¬ r1 = r2)
    (hmem : r1 ∈ s.loadBalancerSourceRanges)
    (hnodup : s.loadBalancerSourceRanges.Nodup)
    (hmem2 : r2 ∈ s.loadBalancerSourceRanges) :
    (IterateAnnotations nowT true s).2 = none ∧
    ((IterateAnnotations nowT true s).1).annotations = [(annKey r2, d2)] ∧
    ¬ r1 ∈ ((IterateAnnotations nowT true s).1).loadBalancerSourceRanges ∧
    r2 ∈ ((IterateAnnotations nowT true s).1).loadBalancerSourceRanges ∧
    List.Perm ((IterateAnnotations nowT true s).1).loadBalancerSourceRanges
      (s.loadBalancerSourceRanges.erase r1) := by
  obtain ⟨pre, post, hp, hc⟩ := first_occ hmem
  have hrec : reconcileSourceRanges s.loadBalancerSourceRanges r1 "remove"
      = Except.ok (pre.tail ++ pre.take 1 ++ post) := by
    rw [hc]
    exact remove_ok_char pre post r1 hp
  have hdel : mapDelete s.annotations (annKey r1) = [(annKey r2, d2)] := by
    rw [hann]
    have hb1 : (annKey r1 == annKey r1) = true := by simp
    have hb2 : (annKey r2 == annKey r1) = false := annKey_beq_false (fun h => hne h.symm)
    simp [mapDelete, List.filter, hb1, hb2]
  have hrm : RemoveIpFromService r1 s true
      = ({ name := s.name, ns := s.ns, annotations := [(annKey r2, d2)],
           loadBalancerSourceRanges := pre.tail ++ pre.take 1 ++ post }, none) := by
    unfold RemoveIpFromService
    rw [hrec]
    simp only [ removeServiceAnnotation, applySourceRangesToSpec, hdel]
    simp
  have hres : IterateAnnotations nowT true s
      = ({ name := s.name, ns := s.ns,
           annotations := [(annKey r2, d2)],
           loadBalancerSourceRanges := pre.tail ++ pre.take 1 ++ post }, none) := by
    rw [IterateAnnotations, hann]
    simp only [iterGo]
    rw [if_pos (annKey_hasPrefix r1), if_pos hexp, trimPrefix_annKey, hrm]
    simp only [iterGo]
    rw [if_pos (annKey_hasPrefix r2), if_neg hnot]
  have hperm : List.Perm (pre.tail ++ pre.take 1 ++ post)
      (s.loadBalancerSourceRanges.erase r1) := remove_ok_perm hrec
  have hpost : ¬ r1 ∈ post := by
    rw [hc] at hnodup
    have h2 : (r1 :: post).Nodup := hnodup.sublist (List.sublist_append_right pre _)
    exact (List.nodup_cons.mp h2).1
  refine ⟨by rw [hres], by rw [hres], ?_, ?_, ?_⟩
  · rw [hres]
    show ¬ r1 ∈ (pre.tail ++ pre.take 1 ++ post)
    intro hmem1
    rcases List.mem_append.mp hmem1 with h1 | h1
    · rcases List.mem_append.mp h1 with h2 | h2
      · exact hp (List.tail_subset pre h2)
      · exact hp (List.take_subset 1 pre h2)
    · exact hpost h1
  · rw [hres]
    exact remove_ok_mem hrec hmem2 (fun h => hne h.symm)
  · rw [hres]
    exact hperm

/-- Witness for C8: a concrete resource with one expired and one live rule
sweeps to exactly the live rule. -/
theorem sweep_two_rules_witness :
    (IterateAnnotations ⟨2026, 1, 1, 0, 0, 0⟩ true
      { name := "ingress-nginx".data, ns := "default".data,
        annotations := [(annKey "10.0.0.1/32".data, "2020-01-01 00:00:00".data),
                        (annKey "10.0.0.2/32".data, "2030-01-01 00:00:00".data)],
        loadBalancerSourceRanges := ["10.0.0.1/32".data, "10.0.0.2/32".data] }).2 = none ∧
    ((IterateAnnotations ⟨2026, 1, 1, 0, 0, 0⟩ true
      { name := "ingress-nginx".data, ns := "default".data,
        annotations := [(annKey "10.0.0.1/32".data, "2020-01-01 00:00:00".data),
                        (annKey "10.0.0.2/32".data, "2030-01-01 00:00:00".data)],
        loadBalancerSourceRanges := ["10.0.0.1/32".data, "10.0.0.2/32".data] }).1).annotations
      = [(annKey "10.0.0.2/32".data, "2030-01-01 00:00:00".data)] ∧
    ¬ "10.0.0.1/32".data ∈ ((IterateAnnotations ⟨2026, 1, 1, 0, 0, 0⟩ true
      { name := "ingress-nginx".data, ns := "default".data,
        annotations := [(annKey "10.0.0.1/32".data, "2020-01-01 00:00:00".data),
                        (annKey "10.0.0.2/32".data, "2030-01-01 00:00:00".data)],
        loadBalancerSourceRanges := ["10.0.0.1/32".data, "10.0.0.2/32".data] }).1).loadBalancerSourceRanges ∧
    "10.0.0.2/32".data ∈ ((IterateAnnotations ⟨2026, 1, 1, 0, 0, 0⟩ true
      { name := "ingress-nginx".data, ns := "default".data,
        annotations := [(annKey "10.0.0.1/32".data, "2020-01-01 00:00:00".data),
                        (annKey "10.0.0.2/32".data, "2030-01-01 00:00:00".data)],
        loadBalancerSourceRanges := ["10.0.0.1/32".data, "10.0.0.2/32".data] }).1).loadBalancerSourceRanges ∧
    List.Perm ((IterateAnnotations ⟨2026, 1, 1, 0, 0, 0⟩ true
      { name := "ingress-nginx".data, ns := "default".data,
        annotations := [(annKey "10.0.0.1/32".data, "2020-01-01 00:00:00".data),
                        (annKey "10.0.0.2/32".data, "2030-01-01 00:00:00".data)],
        loadBalancerSourceRanges := ["10.0.0.1/32".data, "10.0.0.2/32".data] }).1).loadBalancerSourceRanges
      (["10.0.0.1/32".data, "10.0.0.2/32".data].erase "10.0.0.1/32".data) :=
  sweep_two_rules ⟨2026, 1, 1, 0, 0, 0⟩ "10.0.0.1/32".data "10.0.0.2/32".data
    "2020-01-01 00:00:00".data "2030-01-01 00:00:00".data _
    rfl (by decide) (by decide) (by decide) (by decide) (by decide) (by decide)

/-! ### Lexicographic order of zero-padded timestamps -/

theorem digit_lt {a b : Nat} (ha : a < 10) (hb : b < 10) :
    digitChar a < digitChar b ↔ a < b := by
  have key : ∀ x y : Fin 10, (digitChar x.val < digitChar y.val ↔ x.val < y.val) := by decide
  exact key ⟨a, ha⟩ ⟨b, hb⟩

theorem digit_eq {a b : Nat} (ha : a < 10) (hb : b < 10) :
    digitChar a = digitChar b ↔ a = b := by
  have key : ∀ x y : Fin 10, (digitChar x.val = digitChar y.val ↔ x.val = y.val) := by decide
  exact key ⟨a, ha⟩ ⟨b, hb⟩

theorem pad2_eq_iff {a b : Nat} (ha : a ≤ 99) (hb : b ≤ 99) :
    pad2 a = pad2 b ↔ a = b := by
  have h1 : a / 10 < 10 := by omega
  have h2 : b / 10 < 10 := by omega
  have h3 : a % 10 < 10 := by omega
  have h4 : b % 10 < 10 := by omega
  constructor
  · intro h
    obtain ⟨e1, e2⟩ := List.cons_eq_cons.mp h
    obtain ⟨e3, _⟩ := List.cons_eq_cons.mp e2
    have d1 := (digit_eq h1 h2).mp e1
    have d2 := (digit_eq h3 h4).mp e3
    omega
  · intro h
    rw [h]

theorem pad2_lt_iff {a b : Nat} (ha : a ≤ 99) (hb : b ≤ 99) :
    lexLt (pad2 a) (pad2 b) = true ↔ a < b := by
  have h1 : a / 10 < 10 := by omega
  have h2 : b / 10 < 10 := by omega
  have h3 : a % 10 < 10 := by omega
  have h4 : b % 10 < 10 := by omega
  show lexLt [digitChar (a / 10), digitChar (a % 10)]
      [digitChar (b / 10), digitChar (b % 10)] = true ↔ a < b
  by_cases e1 : digitChar (a / 10) = digitChar (b / 10)
  · have q1 : a / 10 = b / 10 := (digit_eq h1 h2).mp e1
    by_cases e2 : digitChar (a % 10) = digitChar (b % 10)
    · have q2 : a % 10 = b % 10 := (digit_eq h3 h4).mp e2
      simp only [lexLt, if_pos e1, if_pos e2]
      constructor
      · intro h
        cases h
      · intro h
        omega
    · simp only [lexLt, if_pos e1, if_neg e2, decide_eq_true_eq]
      rw [digit_lt h3 h4]
      omega
  · have q1 : ¬ a / 10 = b / 10 := fun h => e1 ((digit_eq h1 h2).mpr h)
    simp only [lexLt, if_neg e1, decide_eq_true_eq]
    rw [digit_lt h1 h2]
    omega

theorem pad4_eq_iff {a b : Nat} (ha : a ≤ 9999) (hb : b ≤ 9999) :
    pad4 a = pad4 b ↔ a = b := by
  have h1 : a / 1000 < 10 := by omega
  have h2 : b / 1000 < 10 := by omega
  have h3 : a / 100 % 10 < 10 := by omega
  have h4 : b / 100 % 10 < 10 := by omega
  have h5 : a / 10 % 10 < 10 := by omega
  have h6 : b / 10 % 10 < 10 := by omega
  have h7 : a % 10 < 10 := by omega
  have h8 : b % 10 < 10 := by omega
  constructor
  · intro h
    obtain ⟨e1, e⟩ := List.cons_eq_cons.mp h
    obtain ⟨e2, e⟩ := List.cons_eq_cons.mp e
    obtain ⟨e3, e⟩ := List.cons_eq_cons.mp e
    obtain ⟨e4, _⟩ := List.cons_eq_cons.mp e
    have d1 := (digit_eq h1 h2).mp e1
    have d2 := (digit_eq h3 h4).mp e2
    have d3 := (digit_eq h5 h6).mp e3
    have d4 := (digit_eq h7 h8).mp e4
    omega
  · intro h
    rw [h]

theorem pad4_lt_iff {a b : Nat} (ha : a ≤ 9999) (hb : b ≤ 9999) :
    lexLt (pad4 a) (pad4 b) = true ↔ a < b := by
  have h1 : a / 1000 < 10 := by omega
  have h2 : b / 1000 < 10 := by omega
  have h3 : a / 100 % 10 < 10 := by omega
  have h4 : b / 100 % 10 < 10 := by omega
  have h5 : a / 10 % 10 < 10 := by omega
  have h6 : b / 10 % 10 < 10 := by omega
  have h7 : a % 10 < 10 := by omega
  have h8 : b % 10 < 10 := by omega
  show lexLt
      [digitChar (a / 1000), digitChar (a / 100 % 10), digitChar (a / 10 % 10), digitChar (a % 10)]
      [digitChar (b / 1000), digitChar (b / 100 % 10), digitChar (b / 10 % 10), digitChar (b % 10)]
      = true ↔ a < b
  by_cases e1 : digitChar (a / 1000) = digitChar (b / 1000)
  · have q1 : a / 1000 = b / 1000 := (digit_eq h1 h2).mp e1
    by_cases e2 : digitChar (a / 100 % 10) = digitChar (b / 100 % 10)
    · have q2 : a / 100 % 10 = b / 100 % 10 := (digit_eq h3 h4).mp e2
      by_cases e3 : digitChar (a / 10 % 10) = digitChar (b / 10 % 10)
      · have q3 : a / 10 % 10 = b / 10 % 10 := (digit_eq h5 h6).mp e3
        by_cases e4 : digitChar (a % 10) = digitChar (b % 10)
        · have q4 : a % 10 = b % 10 := (digit_eq h7 h8).mp e4
          simp only [lexLt, if_pos e1, if_pos e2, if_pos e3, if_pos e4]
          constructor
          · intro h
            cases h
          · intro h
            omega
        · simp only [lexLt, if_pos e1, if_pos e2, if_pos e3, if_neg e4, decide_eq_true_eq]
          rw [digit_lt h7 h8]
          omega
      · have q3 : ¬ a / 10 % 10 = b / 10 % 10 := fun h => e3 ((digit_eq h5 h6).mpr h)
        simp only [lexLt, if_pos e1, if_pos e2, if_neg e3, decide_eq_true_eq]
        rw [digit_lt h5 h6]
        omega
    · have q2 : ¬ a / 100 % 10 = b / 100 % 10 := fun h => e2 ((digit_eq h3 h4).mpr h)
      simp only [lexLt, if_pos e1, if_neg e2, decide_eq_true_eq]
      rw [digit_lt h3 h4]
      omega
  · have q1 : ¬ a / 1000 = b / 1000 := fun h => e1 ((digit_eq h1 h2).mpr h)
    simp only [lexLt, if_neg e1, decide_eq_true_eq]
    rw [digit_lt h1 h2]
    omega

theorem lexLt_cons_same (a : Char) (s t : GoStr) :
    lexLt (a :: s) (a :: t) = lexLt s t := by
  simp [lexLt]

theorem lexLt_append_eqlen (as bs cs ds : GoStr) (h : as.length = bs.length) :
    lexLt (as ++ cs) (bs ++ ds) = if as = bs then lexLt cs ds else lexLt as bs := by
  induction as generalizing bs with
  | nil =>
    cases bs with
    | nil => simp
    | cons b bs' => cases h
  | cons a as' ih =>
    cases bs with
    | nil => cases h
    | cons b bs' =>
      have hlen : as'.length = bs'.length := by simpa using h
      by_cases hab : a = b
      · subst hab
        rw [List.cons_append, List.cons_append, lexLt_cons_same, ih bs' hlen]
        by_cases he : as' = bs'
        · simp [he]
        · have hne : ¬ a :: as' = a :: bs' := by
            intro hx
            exact he (List.cons_eq_cons.mp hx).2
          rw [if_neg he, if_neg hne, lexLt_cons_same]
      · have hne : ¬ a :: as' = b :: bs' := by
          intro hx
          exact hab (List.cons_eq_cons.mp hx).1
        rw [if_neg hne]
        show lexLt (a :: (as' ++ cs)) (b :: (bs' ++ ds)) = lexLt (a :: as') (b :: bs')
        simp [lexLt, hab]

/-- Chronological (field-lexicographic) order on civil date-times. -/
def tupleLt (t1 t2 : GoTime) : Prop :=
  t1.year < t2.year ∨ (t1.year = t2.year ∧
    (t1.month < t2.month ∨ (t1.month = t2.month ∧
      (t1.day < t2.day ∨ (t1.day = t2.day ∧
        (t1.hour < t2.hour ∨ (t1.hour = t2.hour ∧
          (t1.minute < t2.minute ∨ (t1.minute = t2.minute ∧
            t1.second < t2.second)))))))))

/-- On fixed-width zero-padded timestamps, the byte-wise string order is
exactly the chronological field order. -/
theorem fmt_lt_iff (t1 t2 : GoTime)
    (hy1 : t1.year ≤ 9999) (hy2 : t2.year ≤ 9999)
    (hm1 : t1.month ≤ 99) (hm2 : t2.month ≤ 99)
    (hd1 : t1.day ≤ 99) (hd2 : t2.day ≤ 99)
    (hh1 : t1.hour ≤ 99) (hh2 : t2.hour ≤ 99)
    (hi1 : t1.minute ≤ 99) (hi2 : t2.minute ≤ 99)
    (hs1 : t1.second ≤ 99) (hs2 : t2.second ≤ 99) :
    lexLt (formatTime t1) (formatTime t2) = true ↔ tupleLt t1 t2 := by
  rw [formatTime, formatTime,
    lexLt_append_eqlen (pad4 t1.year) (pad4 t2.year) _ _ (by rfl)]
  by_cases hy : t1.year = t2.year
  · rw [if_pos ((pad4_eq_iff hy1 hy2).mpr hy), lexLt_cons_same,
      lexLt_append_eqlen (pad2 t1.month) (pad2 t2.month) _ _ (by rfl)]
    by_cases hmo : t1.month = t2.month
    · rw [if_pos ((pad2_eq_iff hm1 hm2).mpr hmo), lexLt_cons_same,
        lexLt_append_eqlen (pad2 t1.day) (pad2 t2.day) _ _ (by rfl)]
      by_cases hda : t1.day = t2.day
      · rw [if_pos ((pad2_eq_iff hd1 hd2).mpr hda), lexLt_cons_same,
          lexLt_append_eqlen (pad2 t1.hour) (pad2 t2.hour) _ _ (by rfl)]
        by_cases hho : t1.hour = t2.hour
        · rw [if_pos ((pad2_eq_iff hh1 hh2).mpr hho), lexLt_cons_same,
            lexLt_append_eqlen (pad2 t1.minute) (pad2 t2.minute) _ _ (by rfl)]
          by_cases hmi : t1.minute = t2.minute
          · rw [if_pos ((pad2_eq_iff hi1 hi2).mpr hmi), lexLt_cons_same,
              pad2_lt_iff hs1 hs2]
            unfold tupleLt
            omega
          · rw [if_neg (fun he => hmi ((pad2_eq_iff hi1 hi2).mp he)),
              pad2_lt_iff hi1 hi2]
            unfold tupleLt
            omega
        · rw [if_neg (fun he => hho ((pad2_eq_iff hh1 hh2).mp he)),
            pad2_lt_iff hh1 hh2]
          unfold tupleLt
          omega
      · rw [if_neg (fun he => hda ((pad2_eq_iff hd1 hd2).mp he)),
          pad2_lt_iff hd1 hd2]
        unfold tupleLt
        omega
    · rw [if_neg (fun he => hmo ((pad2_eq_iff hm1 hm2).mp he)),
        pad2_lt_iff hm1 hm2]
      unfold tupleLt
      omega
  · rw [if_neg (fun he => hy ((pad4_eq_iff hy1 hy2).mp he)),
      pad4_lt_iff hy1 hy2]
    unfold tupleLt
    omega

/-! ### Calendar arithmetic -/

theorem dim_bounds (y m : Nat) : 28 ≤ daysInMonth y m ∧ daysInMonth y m ≤ 31 := by
  unfold daysInMonth
  by_cases h2 : m = 2
  · rw [if_pos h2]
    by_cases hl : isLeap y = true
    · rw [if_pos hl]
      omega
    · rw [if_neg hl]
      omega
  · rw [if_neg h2]
    by_cases h30 : m = 4 ∨ m = 6 ∨ m = 9 ∨ m = 11
    · rw [if_pos h30]
      omega
    · rw [if_neg h30]
      omega

theorem dbm_succ (y m : Nat) (h : 1 ≤ m) :
    daysBeforeMonth y (m + 1) = daysBeforeMonth y m + daysInMonth y m := by
  cases m with
  | zero => exact absurd h (by decide)
  | succ k => rfl

theorem dbm_le (y : Nat) {m1 m2 : Nat} (h1 : 1 ≤ m1) (h : m1 ≤ m2) :
    daysBeforeMonth y m1 ≤ daysBeforeMonth y m2 := by
  induction m2 with
  | zero => exact absurd (le_trans h1 h) (by decide)
  | succ k ih =>
    by_cases he : m1 = k + 1
    · rw [he]
    · have hk : m1 ≤ k := by omega
      have hstep : daysBeforeMonth y (k + 1) = daysBeforeMonth y k + daysInMonth y k :=
        dbm_succ y k (le_trans h1 hk)
      have := ih hk
      omega

theorem dbm_13 (y : Nat) : daysBeforeMonth y 13 = yearDays y := by
  have e : daysBeforeMonth y 13
      = 0 + daysInMonth y 1 + daysInMonth y 2 + daysInMonth y 3 + daysInMonth y 4
        + daysInMonth y 5 + daysInMonth y 6 + daysInMonth y 7 + daysInMonth y 8
        + daysInMonth y 9 + daysInMonth y 10 + daysInMonth y 11 + daysInMonth y 12 := rfl
  rw [e]
  by_cases hl : isLeap y = true
  · simp [daysInMonth, yearDays, hl]
  · simp [daysInMonth, yearDays, hl]

theorem doy_lt (t : GoTime) (hv : ValidTime t) :
    daysBeforeMonth t.year t.month + (t.day - 1) < yearDays t.year := by
  obtain ⟨_, _, hm1, hm12, hd1, hdim, _, _, _⟩ := hv
  have h1 : daysBeforeMonth t.year (t.month + 1)
      = daysBeforeMonth t.year t.month + daysInMonth t.year t.month := dbm_succ t.year t.month hm1
  have h2 : daysBeforeMonth t.year (t.month + 1) ≤ daysBeforeMonth t.year 13 :=
    dbm_le t.year (by omega) (by omega)
  have h3 : daysBeforeMonth t.year 13 = yearDays t.year := dbm_13 t.year
  omega

theorem dby_succ (y : Nat) (h : 1 ≤ y) :
    daysBeforeYear (y + 1) = daysBeforeYear y + yearDays y := by
  cases y with
  | zero => exact absurd h (by decide)
  | succ k => rfl

theorem dby_step_le {y1 y2 : Nat} (h1 : 1 ≤ y1) (h : y1 < y2) :
    daysBeforeYear y1 + yearDays y1 ≤ daysBeforeYear y2 := by
  induction y2 with
  | zero => exact absurd (lt_of_lt_of_le h (Nat.zero_le 0)) (by omega)
  | succ k ih =>
    by_cases he : y1 = k
    · subst he
      rw [dby_succ y1 h1]
    · have hk : y1 < k := by omega
      have hstep : daysBeforeYear (k + 1) = daysBeforeYear k + yearDays k :=
        dby_succ k (by omega)
      have := ih hk
      omega

theorem toSeconds_lt_of_tupleLt {t1 t2 : GoTime} (hv1 : ValidTime t1) (hv2 : ValidTime t2)
    (h : tupleLt t1 t2) : toSeconds t1 < toSeconds t2 := by
  obtain ⟨ha1, ha2, ha3, ha4, ha5, ha6, ha7, ha8, ha9⟩ := hv1
  obtain ⟨hb1, hb2, hb3, hb4, hb5, hb6, hb7, hb8, hb9⟩ := hv2
  unfold tupleLt at h
  unfold toSeconds toDays
  rcases h with hy | ⟨hy, h⟩
  · have b1 : daysBeforeMonth t1.year t1.month + (t1.day - 1) < yearDays t1.year :=
      doy_lt t1 ⟨ha1, ha2, ha3, ha4, ha5, ha6, ha7, ha8, ha9⟩
    have b2 : daysBeforeYear t1.year + yearDays t1.year ≤ daysBeforeYear t2.year :=
      dby_step_le ha1 hy
    omega
  · have ey : daysBeforeYear t1.year = daysBeforeYear t2.year := by rw [hy]
    rcases h with hmo | ⟨hmo, h⟩
    · have q1 : daysBeforeMonth t1.year (t1.month + 1)
          = daysBeforeMonth t1.year t1.month + daysInMonth t1.year t1.month :=
        dbm_succ t1.year t1.month ha3
      have q2 : daysBeforeMonth t1.year (t1.month + 1) ≤ daysBeforeMonth t1.year t2.month :=
        dbm_le t1.year (by omega) (by omega)
      have q3 : daysBeforeMonth t1.year t2.month = daysBeforeMonth t2.year t2.month := by
        rw [hy]
      omega
    · have em : daysBeforeMonth t1.year t1.month = daysBeforeMonth t2.year t2.month := by
        rw [hy, hmo]
      rcases h with hda | ⟨hda, h⟩
      · omega
      · rcases h with hho | ⟨hho, h⟩
        · omega
        · rcases h with hmi | ⟨hmi, hse⟩
          · omega
          · omega

theorem toSeconds_lt_iff {t1 t2 : GoTime} (hv1 : ValidTime t1) (hv2 : ValidTime t2) :
    toSeconds t1 < toSeconds t2 ↔ tupleLt t1 t2 := by
  constructor
  · intro h
    by_cases he : tupleLt t1 t2
    · exact he
    · exfalso
      have tri : tupleLt t1 t2 ∨
          (t1.year = t2.year ∧ t1.month = t2.month ∧ t1.day = t2.day ∧
           t1.hour = t2.hour ∧ t1.minute = t2.minute ∧ t1.second = t2.second) ∨
          tupleLt t2 t1 := by
        unfold tupleLt
        omega
      rcases tri with h1 | h1 | h1
      · exact he h1
      · have heq : toSeconds t1 = toSeconds t2 := by
          unfold toSeconds toDays
          rw [h1.1, h1.2.1, h1.2.2.1, h1.2.2.2.1, h1.2.2.2.2.1, h1.2.2.2.2.2]
        omega
      · have := toSeconds_lt_of_tupleLt hv2 hv1 h1
        omega
  · exact toSeconds_lt_of_tupleLt hv1 hv2

/-- Adding two days to a valid date-time yields a valid date-time exactly
172800 seconds later (for years that do not overflow four digits). -/
theorem addDateDays_two {t : GoTime} (hv : ValidTime t) (hy : t.year ≤ 9998) :
    ValidTime (addDateDays 2 t) ∧ toSeconds (addDateDays 2 t) = toSeconds t + 172800 := by
  obtain ⟨h1, h2, h3, h4, h5, h6, h7, h8, h9⟩ := hv
  have hdim := dim_bounds t.year t.month
  have e0 : addDateDays 2 t
      = normDays 3 ⟨t.year, t.month, t.day + 2, t.hour, t.minute, t.second⟩ := rfl
  have e1 : normDays 3 ⟨t.year, t.month, t.day + 2, t.hour, t.minute, t.second⟩
      = if t.day + 2 > daysInMonth t.year t.month then
          normDays 2 (monthRoll ⟨t.year, t.month + 1,
            t.day + 2 - daysInMonth t.year t.month, t.hour, t.minute, t.second⟩)
        else ⟨t.year, t.month, t.day + 2, t.hour, t.minute, t.second⟩ := rfl
  by_cases hover : t.day + 2 > daysInMonth t.year t.month
  · by_cases hm12 : t.month = 12
    · -- December overflow: roll into January of the next year
      have hd31 : daysInMonth t.year t.month = 31 := by
        rw [hm12]
        rfl
      have h31b : daysInMonth (t.year + 1) 1 = 31 := rfl
      have e2 : monthRoll ⟨t.year, t.month + 1,
            t.day + 2 - daysInMonth t.year t.month, t.hour, t.minute, t.second⟩
          = if t.month + 1 > 12 then
              ⟨t.year + 1, 1, t.day + 2 - daysInMonth t.year t.month,
                t.hour, t.minute, t.second⟩
            else ⟨t.year, t.month + 1, t.day + 2 - daysInMonth t.year t.month,
                t.hour, t.minute, t.second⟩ := rfl
      have e3 : normDays 2 ⟨t.year + 1, 1, t.day + 2 - daysInMonth t.year t.month,
            t.hour, t.minute, t.second⟩
          = if t.day + 2 - daysInMonth t.year t.month > daysInMonth (t.year + 1) 1 then
              normDays 1 (monthRoll ⟨t.year + 1, 1 + 1,
                t.day + 2 - daysInMonth t.year t.month - daysInMonth (t.year + 1) 1,
                t.hour, t.minute, t.second⟩)
            else ⟨t.year + 1, 1, t.day + 2 - daysInMonth t.year t.month,
                t.hour, t.minute, t.second⟩ := rfl
      have hres : addDateDays 2 t
          = ⟨t.year + 1, 1, t.day + 2 - daysInMonth t.year t.month,
              t.hour, t.minute, t.second⟩ := by
        rw [e0, e1, if_pos hover, e2, if_pos (by omega), e3, if_neg (by omega)]
      constructor
      · rw [hres]
        show 1 ≤ t.year + 1 ∧ t.year + 1 ≤ 9999 ∧ 1 ≤ 1 ∧ 1 ≤ 12 ∧
          1 ≤ t.day + 2 - daysInMonth t.year t.month ∧
          t.day + 2 - daysInMonth t.year t.month ≤ daysInMonth (t.year + 1) 1 ∧
          t.hour ≤ 23 ∧ t.minute ≤ 59 ∧ t.second ≤ 59
        refine ⟨by omega, by omega, by omega, by omega, by omega, by omega, h7, h8, h9⟩
      · rw [hres]
        show (daysBeforeYear (t.year + 1) + daysBeforeMonth (t.year + 1) 1 +
              (t.day + 2 - daysInMonth t.year t.month - 1)) * 86400 +
              t.hour * 3600 + t.minute * 60 + t.second
            = (daysBeforeYear t.year + daysBeforeMonth t.year t.month + (t.day - 1)) * 86400 +
              t.hour * 3600 + t.minute * 60 + t.second + 172800
        have q1 : daysBeforeYear (t.year + 1) = daysBeforeYear t.year + yearDays t.year :=
          dby_succ t.year h1
        have q2 : daysBeforeMonth t.year 13 = yearDays t.year := dbm_13 t.year
        have q3 : daysBeforeMonth t.year 13
            = daysBeforeMonth t.year 12 + daysInMonth t.year 12 := dbm_succ t.year 12 (by omega)
        have q4 : daysBeforeMonth t.year t.month = daysBeforeMonth t.year 12 := by rw [hm12]
        have q5 : daysInMonth t.year t.month = daysInMonth t.year 12 := by rw [hm12]
        have q6 : daysBeforeMonth (t.year + 1) 1 = 0 := rfl
        omega
    · -- overflow inside the same year: step into the next month
      have hdim' := dim_bounds t.year (t.month + 1)
      have e2 : monthRoll ⟨t.year, t.month + 1,
            t.day + 2 - daysInMonth t.year t.month, t.hour, t.minute, t.second⟩
          = if t.month + 1 > 12 then
              ⟨t.year + 1, 1, t.day + 2 - daysInMonth t.year t.month,
                t.hour, t.minute, t.second⟩
            else ⟨t.year, t.month + 1, t.day + 2 - daysInMonth t.year t.month,
                t.hour, t.minute, t.second⟩ := rfl
      have e3 : normDays 2 ⟨t.year, t.month + 1, t.day + 2 - daysInMonth t.year t.month,
            t.hour, t.minute, t.second⟩
          = if t.day + 2 - daysInMonth t.year t.month
                > daysInMonth t.year (t.month + 1) then
              normDays 1 (monthRoll ⟨t.year, t.month + 1 + 1,
                t.day + 2 - daysInMonth t.year t.month - daysInMonth t.year (t.month + 1),
                t.hour, t.minute, t.second⟩)
            else ⟨t.year, t.month + 1, t.day + 2 - daysInMonth t.year t.month,
                t.hour, t.minute, t.second⟩ := rfl
      have hres : addDateDays 2 t
          = ⟨t.year, t.month + 1, t.day + 2 - daysInMonth t.year t.month,
              t.hour, t.minute, t.second⟩ := by
        rw [e0, e1, if_pos hover, e2, if_neg (by omega), e3, if_neg (by omega)]
      constructor
      · rw [hres]
        show 1 ≤ t.year ∧ t.year ≤ 9999 ∧ 1 ≤ t.month + 1 ∧ t.month + 1 ≤ 12 ∧
          1 ≤ t.day + 2 - daysInMonth t.year t.month ∧
          t.day + 2 - daysInMonth t.year t.month ≤ daysInMonth t.year (t.month + 1) ∧
          t.hour ≤ 23 ∧ t.minute ≤ 59 ∧ t.second ≤ 59
        refine ⟨h1, h2, by omega, by omega, by omega, by omega, h7, h8, h9⟩
      · rw [hres]
        show (daysBeforeYear t.year + daysBeforeMonth t.year (t.month + 1) +
              (t.day + 2 - daysInMonth t.year t.month - 1)) * 86400 +
              t.hour * 3600 + t.minute * 60 + t.second
            = (daysBeforeYear t.year + daysBeforeMonth t.year t.month + (t.day - 1)) * 86400 +
              t.hour * 3600 + t.minute * 60 + t.second + 172800
        have q1 : daysBeforeMonth t.year (t.month + 1)
            = daysBeforeMonth t.year t.month + daysInMonth t.year t.month :=
          dbm_succ t.year t.month h3
        omega
  · -- no overflow: the date just moves two days forward
    have hres : addDateDays 2 t
        = ⟨t.year, t.month, t.day + 2, t.hour, t.minute, t.second⟩ := by
      rw [e0, e1, if_neg hover]
    constructor
    · rw [hres]
      show 1 ≤ t.year ∧ t.year ≤ 9999 ∧ 1 ≤ t.month ∧ t.month ≤ 12 ∧
        1 ≤ t.day + 2 ∧ t.day + 2 ≤ daysInMonth t.year t.month ∧
        t.hour ≤ 23 ∧ t.minute ≤ 59 ∧ t.second ≤ 59
      refine ⟨h1, h2, h3, h4, by omega, by omega, h7, h8, h9⟩
    · rw [hres]
      show (daysBeforeYear t.year + daysBeforeMonth t.year t.month + (t.day + 2 - 1)) * 86400 +
            t.hour * 3600 + t.minute * 60 + t.second
          = (daysBeforeYear t.year + daysBeforeMonth t.year t.month + (t.day - 1)) * 86400 +
            t.hour * 3600 + t.minute * 60 + t.second + 172800
      omega

/-! ### Claims C5 and C6: the codec -/

/-- The expiry test: the source compares the stored deadline string with
the freshly formatted current time using Go string `<` (`if v < now` in
`IterateAnnotations`); the spec calls this `IsExpired`. -/
def IsExpired (deadline now : GoStr) : Bool := lexLt deadline now

theorem fmt_lexLt_iff_seconds {t1 t2 : GoTime} (hv1 : ValidTime t1) (hv2 : ValidTime t2) :
    (lexLt (formatTime t1) (formatTime t2) = true) ↔ toSeconds t1 < toSeconds t2 := by
  have d1 := dim_bounds t1.year t1.month
  have d2 := dim_bounds t2.year t2.month
  obtain ⟨a1, a2, a3, a4, a5, a6, a7, a8, a9⟩ := hv1
  obtain ⟨b1, b2, b3, b4, b5, b6, b7, b8, b9⟩ := hv2
  rw [fmt_lt_iff t1 t2 (by omega) (by omega) (by omega) (by omega) (by omega) (by omega)
    (by omega) (by omega) (by omega) (by omega) (by omega) (by omega)]
  exact (toSeconds_lt_iff ⟨a1, a2, a3, a4, a5, a6, a7, a8, a9⟩
    ⟨b1, b2, b3, b4, b5, b6, b7, b8, b9⟩).symm

/-- Claim C6: the expiry test is exactly the lexicographic strict order on
the two timestamp strings (first conjunct); on fixed-layout timestamps of
valid date-times the test holds iff the deadline is chronologically
earlier, so it answers true on past deadlines and false on future ones
(second conjunct); and a deadline stamped two days ahead is never expired
at the instant it is stamped (third conjunct). -/
theorem isExpired_spec :
    (∀ d n : GoStr, IsExpired d n = lexLt d n) ∧
    (∀ t1 t2 : GoTime, ValidTime t1 → ValidTime t2 →
      (IsExpired (formatTime t1) (formatTime t2) = true ↔ toSeconds t1 < toSeconds t2)) ∧
    (∀ t : GoTime, ValidTime t → t.year ≤ 9998 →
      IsExpired (formatTime (addDateDays 2 t)) (formatTime t) = false) := by
  refine ⟨fun d n => rfl, fun t1 t2 hv1 hv2 => fmt_lexLt_iff_seconds hv1 hv2, ?_⟩
  intro t hv hy
  obtain ⟨hva, hsec⟩ := addDateDays_two hv hy
  have h := fmt_lexLt_iff_seconds hva hv
  rw [Bool.eq_false_iff]
  intro hb
  have := h.mp hb
  omega

/-- Witness for C6 at concrete timestamps: one second earlier on the same
day is expired, and stamping two days ahead (across a month boundary) is
not expired at the stamping instant. -/
theorem isExpired_spec_witness :
    IsExpired (formatTime ⟨2, 1, 1, 0, 0, 0⟩) (formatTime ⟨2, 1, 1, 0, 0, 1⟩) = true ∧
    IsExpired (formatTime (addDateDays 2 ⟨2, 1, 30, 23, 59, 59⟩))
      (formatTime ⟨2, 1, 30, 23, 59, 59⟩) = false := by
  constructor
  · exact (isExpired_spec.2.1 ⟨2, 1, 1, 0, 0, 0⟩ ⟨2, 1, 1, 0, 0, 1⟩
      (by decide) (by decide)).mpr (by decide)
  · exact isExpired_spec.2.2 ⟨2, 1, 30, 23, 59, 59⟩ (by decide) (by decide)

/-- Claim C5: `Stamp` (`updateServiceAnnotation`) returns the deadline
formatted from `now + 2 days` — exactly 172800 seconds later, a valid
date-time again — as a 19-character fixed-layout string, records it in
the metadata under `annotationKeyPrefix.<range>`, and leaves the
allow-list untouched; the operation is total (it cannot fail). -/
theorem stamp_spec :
    ∀ (nowT : GoTime) (iprange : GoStr) (s : Service), ValidTime nowT → nowT.year ≤ 9998 →
      ( updateServiceAnnotation nowT iprange s).1 = formatTime (addDateDays 2 nowT) ∧
      toSeconds (addDateDays 2 nowT) = toSeconds nowT + 2 * 86400 ∧
      ValidTime (addDateDays 2 nowT) ∧
      (( updateServiceAnnotation nowT iprange s).1).length = 19 ∧
      mapGet ((( updateServiceAnnotation nowT iprange s).2).annotations) (annKey iprange)
        = some (( updateServiceAnnotation nowT iprange s).1) ∧
      (( updateServiceAnnotation nowT iprange s).2).loadBalancerSourceRanges
        = s.loadBalancerSourceRanges := by
  intro nowT iprange s hv hy
  obtain ⟨hva, hsec⟩ := addDateDays_two hv hy
  refine ⟨rfl, by omega, hva, ?_, ?_, rfl⟩
  · show (formatTime (addDateDays 2 nowT)).length = 19
    rfl
  · exact mapGet_insert_self s.annotations (annKey iprange) (formatTime (addDateDays 2 nowT))

/-- An opted-in service with an empty allow-list. -/
def svcEmpty : Service :=
  { name := "ingress-nginx".data, ns := "default".data,
    annotations := [( mgmtAnnotation, "true".data)],
    loadBalancerSourceRanges := [] }

/-- Witness for C5 at a concrete instant and resource. -/
theorem stamp_spec_witness :
    ( updateServiceAnnotation ⟨2, 1, 30, 23, 59, 59⟩ "10.0.0.1/32".data svcEmpty).1
      = formatTime (addDateDays 2 ⟨2, 1, 30, 23, 59, 59⟩) ∧
    toSeconds (addDateDays 2 ⟨2, 1, 30, 23, 59, 59⟩)
      = toSeconds ⟨2, 1, 30, 23, 59, 59⟩ + 2 * 86400 ∧
    ValidTime (addDateDays 2 ⟨2, 1, 30, 23, 59, 59⟩) ∧
    (( updateServiceAnnotation ⟨2, 1, 30, 23, 59, 59⟩ "10.0.0.1/32".data svcEmpty).1).length
      = 19 ∧
    mapGet ((( updateServiceAnnotation ⟨2, 1, 30, 23, 59, 59⟩ "10.0.0.1/32".data
        svcEmpty).2).annotations) (annKey "10.0.0.1/32".data)
      = some (( updateServiceAnnotation ⟨2, 1, 30, 23, 59, 59⟩ "10.0.0.1/32".data svcEmpty).1) ∧
    (( updateServiceAnnotation ⟨2, 1, 30, 23, 59, 59⟩ "10.0.0.1/32".data
        svcEmpty).2).loadBalancerSourceRanges = svcEmpty.loadBalancerSourceRanges :=
  stamp_spec ⟨2, 1, 30, 23, 59, 59⟩ "10.0.0.1/32".data svcEmpty (by decide) (by decide)
